import Mathlib

/-!
Verification of the document-location resolution and text-splice core of the
gong-notes-automation repository (src/activities.py).

The Python functions `read_google_doc` and `append_to_google_doc` are embedded
shallowly: Google-Docs document bodies become lists of structural elements,
Python strings become `List Char`, and the index bookkeeping of the splice
scheduler is reproduced verbatim.  Library functions from Python's stdlib
(`datetime.fromisoformat`, `datetime.fromtimestamp`, `str.find`, slicing,
`str.isdigit`) are modelled by executable Lean definitions restricted to the
documented subset the program relies on.
-/

namespace GongNotes

/-! ## Data model: Google Docs structural elements as read by the code -/

/-- An inline element of a paragraph, as inspected by the code:
`textRun` (with its `content` string), `dateElement` (with the timestamp found
under `dateElementProperties.timestamp`, the empty list standing for a missing
or empty timestamp), or any other kind of inline element (skipped by every
loop in the source). -/
inductive ParagraphElement
  | textRun (content : List Char)
  | dateElement (timestamp : List Char)
  | otherElement
deriving DecidableEq

/-- A paragraph: its `paragraphStyle.namedStyleType` and its inline elements. -/
structure Paragraph where
  namedStyleType : List Char
  elements : List ParagraphElement
deriving DecidableEq

/-- A structural element of the document body: a paragraph (carrying the
`endIndex` field the code reads via `element.get("endIndex")`; `0` models a
missing/zero value, which is falsy in Python exactly like `None`), or any
non-paragraph element (table, section break, ...), which every loop skips. -/
inductive StructuralElement
  | paragraph (para : Paragraph) (endIndex : Nat)
  | nonParagraph
deriving DecidableEq

/-- Concatenation of the `textRun` contents of one paragraph's elements,
as in the `full_text` accumulation loop of the source. -/
def flattenParagraph : List ParagraphElement → List Char
  | [] => []
  | ParagraphElement.textRun c :: rest => c ++ flattenParagraph rest
  | ParagraphElement.dateElement _ :: rest => flattenParagraph rest
  | ParagraphElement.otherElement :: rest => flattenParagraph rest

/-- The `full_text` string built by `read_google_doc` / `append_to_google_doc`:
every `textRun.content` of every paragraph, in document order. -/
def fullTextOf : List StructuralElement → List Char
  | [] => []
  | StructuralElement.paragraph p _ :: rest => flattenParagraph p.elements ++ fullTextOf rest
  | StructuralElement.nonParagraph :: rest => fullTextOf rest

/-! ## Python string primitives -/

/-- Python `haystack.find(pat)` restricted to the successful case:
index of the first occurrence of `pat` in the haystack, `none` when absent
(Python returns `-1`; the source only calls `find` under an `in` guard). -/
def findSub (pat : List Char) : List Char → Option Nat
  | [] => if pat.isEmpty then some 0 else none
  | c :: rest =>
      if pat.isPrefixOf (c :: rest) then some 0
      else (findSub pat rest).map (fun i => i + 1)

/-- Python `pat in haystack` (for non-empty `pat`). -/
def containsSub (pat hay : List Char) : Bool := (findSub pat hay).isSome

/-- Python slicing `t[a:b]` for non-negative bounds. -/
def pySlice (t : List Char) (a b : Nat) : List Char := (t.drop a).take (b - a)

/-! ## Sentinels and other literal strings of the source -/

def SNAPSHOT_MARKER_START : List Char := ("=== ACCOUNT SNAPSHOT ===").toList

def SNAPSHOT_MARKER_END : List Char := ("=== END SNAPSHOT ===").toList

def HEADING_2 : List Char := ("HEADING_2").toList

def ATTENDEES_MIXED : List Char := ("Attendees:").toList

def ATTENDEES_LOWER : List Char := ("attendees:").toList

/-! ## Snapshot extraction (`read_google_doc`, post-read step) -/

/-- The snapshot-extraction step of `read_google_doc`: if both sentinels occur
in the flattened text, return `full_text[start:end]` where `start` is the index
of the first start sentinel and `end` the end of the first end sentinel;
otherwise return the empty string. -/
def extractSnapshot (fullText : List Char) : List Char :=
  match findSub SNAPSHOT_MARKER_START fullText, findSub SNAPSHOT_MARKER_END fullText with
  | some s, some e0 => pySlice fullText s (e0 + SNAPSHOT_MARKER_END.length)
  | _, _ => []

/-! ## Dates: models of the Python stdlib functions used by the source -/

/-- Calendar date (what `strftime("%Y-%m-%d")` depends on). -/
structure CalDate where
  year : Nat
  month : Nat
  day : Nat
deriving DecidableEq

def isLeap (y : Nat) : Bool := (y % 4 == 0 && y % 100 != 0) || y % 400 == 0

def daysInMonth (y m : Nat) : Nat :=
  if m = 2 then (if isLeap y then 29 else 28)
  else if m = 4 ∨ m = 6 ∨ m = 9 ∨ m = 11 then 30 else 31

def isAsciiDigit (c : Char) : Bool := decide ('0' ≤ c) && decide (c ≤ '9')

def digitVal (c : Char) : Nat := c.toNat - 48

/-- Python `s.isdigit()` restricted to ASCII input: non-empty and all ASCII
decimal digits.  (Python's `str.isdigit` also accepts non-ASCII Unicode digit
strings, which `int()` then parses when they are decimal digits; this
embedding's scope is ASCII input, and theorems about call-date normalization
carry that scope as a hypothesis.) -/
def pyIsDigit (s : List Char) : Bool := !s.isEmpty && s.all isAsciiDigit

/-- Python `int(s)` for an all-digit string. -/
def digitsToNat (s : List Char) : Nat := s.foldl (fun acc c => acc * 10 + digitVal c) 0

/-- Trailing timezone designator accepted after the time: nothing, or
`±HH:MM`.  Part of the model of `datetime.fromisoformat`. -/
def validTZ : List Char → Bool
  | [] => true
  | [sg, h1, h2, c, m1, m2] =>
      decide ((sg = '+' ∨ sg = '-') ∧ c = ':' ∧
        isAsciiDigit h1 = true ∧ isAsciiDigit h2 = true ∧
        isAsciiDigit m1 = true ∧ isAsciiDigit m2 = true ∧
        digitVal h1 * 10 + digitVal h2 < 24 ∧ digitVal m1 * 10 + digitVal m2 < 60)
  | _ => false

/-- Optional `:SS` seconds field followed by the timezone designator. -/
def validSeconds : List Char → Bool
  | c :: s1 :: s2 :: rest =>
      if c = ':' then
        decide (isAsciiDigit s1 = true ∧ isAsciiDigit s2 = true ∧
          digitVal s1 * 10 + digitVal s2 < 60 ∧ validTZ rest = true)
      else validTZ (c :: s1 :: s2 :: rest)
  | rest => validTZ rest

/-- Optional time-of-day part: nothing, or a separator (`T` or space) followed
by `HH:MM`, optional `:SS`, optional timezone. -/
def validTimePart : List Char → Bool
  | [] => true
  | sep :: h1 :: h2 :: c :: m1 :: m2 :: rest =>
      decide ((sep = 'T' ∨ sep = ' ') ∧ c = ':' ∧
        isAsciiDigit h1 = true ∧ isAsciiDigit h2 = true ∧
        isAsciiDigit m1 = true ∧ isAsciiDigit m2 = true ∧
        digitVal h1 * 10 + digitVal h2 < 24 ∧ digitVal m1 * 10 + digitVal m2 < 60 ∧
        validSeconds rest = true)
  | _ => false

/-- Model of Python `datetime.fromisoformat`, restricted to the documented
extended format the program relies on: `YYYY-MM-DD`, optionally followed by a
separator and `HH:MM[:SS]`, optionally followed by `±HH:MM`.  Returns the
calendar date (the only part `strftime("%Y-%m-%d")` observes); `none` models
the `ValueError` raised on any other input. -/
def fromisoformat : List Char → Option CalDate
  | y1 :: y2 :: y3 :: y4 :: c1 :: m1 :: m2 :: c2 :: d1 :: d2 :: rest =>
      if c1 = '-' ∧ c2 = '-' ∧
         isAsciiDigit y1 = true ∧ isAsciiDigit y2 = true ∧
         isAsciiDigit y3 = true ∧ isAsciiDigit y4 = true ∧
         isAsciiDigit m1 = true ∧ isAsciiDigit m2 = true ∧
         isAsciiDigit d1 = true ∧ isAsciiDigit d2 = true ∧
         validTimePart rest = true then
        let y := digitVal y1 * 1000 + digitVal y2 * 100 + digitVal y3 * 10 + digitVal y4
        let m := digitVal m1 * 10 + digitVal m2
        let d := digitVal d1 * 10 + digitVal d2
        if 1 ≤ y ∧ 1 ≤ m ∧ m ≤ 12 ∧ 1 ≤ d ∧ d ≤ daysInMonth y m then
          some ⟨y, m, d⟩
        else none
      else none
  | _ => none

/-- Howard Hinnant's `civil_from_days`: calendar date of a day count relative
to 1970-01-01. -/
def civilFromDays (z0 : Int) : CalDate :=
  let z := z0 + 719468
  let era := z.fdiv 146097
  let doe := z - era * 146097
  let yoe := (doe - doe.fdiv 1460 + doe.fdiv 36524 - doe.fdiv 146096).fdiv 365
  let y := yoe + era * 400
  let doy := doe - (365 * yoe + yoe.fdiv 4 - yoe.fdiv 100)
  let mp := (5 * doy + 2).fdiv 153
  let d := doy - (153 * mp + 2).fdiv 5 + 1
  let m := if mp < 10 then mp + 3 else mp - 9
  let y' := if m ≤ 2 then y + 1 else y
  ⟨y'.toNat, m.toNat, d.toNat⟩

/-- Model of Python `datetime.fromtimestamp`: the calendar date of a Unix
epoch-seconds value, interpreted in the local timezone of the executing
process, modelled as a fixed offset `tzOffset` in seconds.  Python raises
(`ValueError`, `OverflowError` or `OSError`) when the result falls outside
`datetime`'s supported range (years 1 to 9999) — for example for a 13-digit
millisecond timestamp mistakenly passed as seconds; `none` models that error
path, which the enclosing `try` converts to the date-parse failure. -/
def fromtimestamp (tzOffset : Int) (n : Nat) : Option CalDate :=
  let d := civilFromDays ((Int.ofNat n + tzOffset).fdiv 86400)
  if 1 ≤ d.year ∧ d.year ≤ 9999 then some d else none

def digitChar (n : Nat) : Char := Char.ofNat (48 + n % 10)

def pad2 (n : Nat) : List Char := [digitChar (n / 10), digitChar n]

def pad4 (n : Nat) : List Char :=
  [digitChar (n / 1000), digitChar (n / 100), digitChar (n / 10), digitChar n]

/-- Model of Python `dt.strftime("%Y-%m-%d")` (years are at most 9999 in
`datetime`, so `%Y` is the zero-padded four-digit year). -/
def strftimeYmd (d : CalDate) : List Char :=
  pad4 d.year ++ '-' :: (pad2 d.month ++ '-' :: pad2 d.day)

def zReplacement : List Char := ['+', '0', '0', ':', '0', '0']

/-- Python `s.replace("Z", "+00:00")`: replaces every occurrence, as the
source does. -/
def replaceZ : List Char → List Char
  | [] => []
  | c :: t => if c = 'Z' then zReplacement ++ replaceZ t else c :: replaceZ t

/-- Spec-side variant for comparison: replace only a trailing `Z`
(the spec's wording "after replacing a trailing Z with +00:00"). -/
def replaceTrailingZ (s : List Char) : List Char :=
  match s.getLast? with
  | some c => if c = 'Z' then s.dropLast ++ zReplacement else s
  | none => s

/-- The call-date normalization of `append_to_google_doc` (the `try` block):
an all-digit string is epoch seconds via `fromtimestamp`, anything else goes
through `fromisoformat` after `replace("Z", "+00:00")`; `none` models the
raised date-parse exception. -/
def parseCallDate (tzOffset : Int) (callDate : List Char) : Option CalDate :=
  if pyIsDigit callDate then fromtimestamp tzOffset (digitsToNat callDate)
  else fromisoformat (replaceZ callDate)

/-! ## The anchor scan of `append_to_google_doc` -/

/-- Heading content check: `"Attendees:" in content or "attendees:" in
content.lower()`. -/
def attendeesContent (content : List Char) : Bool :=
  containsSub ATTENDEES_MIXED content ||
  containsSub ATTENDEES_LOWER (content.map Char.toLower)

/-- Whether some `textRun` element of the paragraph satisfies the Attendees
check (the inner loop of the second scan phase). -/
def paragraphHasAttendees (els : List ParagraphElement) : Bool :=
  els.any (fun el =>
    match el with
    | ParagraphElement.textRun c => attendeesContent c
    | _ => false)

/-- The inner loop over a `HEADING_2` paragraph's elements: each `dateElement`
with a non-empty timestamp is parsed with
`datetime.fromisoformat(timestamp.replace("Z", "+00:00"))` and its formatted
day compared with the target day string; `.error ts` models the uncaught
`ValueError` when a timestamp does not parse, `.ok true` a match (the loop
breaks), `.ok false` exhaustion without a match. -/
def headingDateMatch (target : List Char) : List ParagraphElement → Except (List Char) Bool
  | [] => Except.ok false
  | ParagraphElement.dateElement ts :: rest =>
      if ts.isEmpty then headingDateMatch target rest
      else
        match fromisoformat (replaceZ ts) with
        | none => Except.error ts
        | some d =>
            if strftimeYmd d = target then Except.ok true
            else headingDateMatch target rest
  | ParagraphElement.textRun _ :: rest => headingDateMatch target rest
  | ParagraphElement.otherElement :: rest => headingDateMatch target rest

/-- The element scan of `append_to_google_doc`: state `found` is
`found_matching_heading`, state `idx` is `insert_index` (with `0` for Python's
falsy `None`).  Returns `.ok idx` when the loop ends (by `break` with a truthy
index, or by exhaustion), `.error ts` when a heading timestamp fails to
parse. -/
def scanForAnchor (target : List Char) :
    List StructuralElement → Bool → Nat → Except (List Char) Nat
  | [], _, idx => Except.ok idx
  | StructuralElement.nonParagraph :: rest, found, idx =>
      scanForAnchor target rest found idx
  | StructuralElement.paragraph p endIdx :: rest, found, idx =>
      if found = false ∧ p.namedStyleType = HEADING_2 then
        match headingDateMatch target p.elements with
        | Except.error ts => Except.error ts
        | Except.ok b => scanForAnchor target rest (found || b) idx
      else if found then
        let idx' := if paragraphHasAttendees p.elements then endIdx else idx
        if idx' ≠ 0 then Except.ok idx'
        else scanForAnchor target rest found idx'
      else scanForAnchor target rest found idx

/-! ## The splice schedule of `append_to_google_doc` -/

/-- A request of the batched write, as built in `requests_body`. -/
inductive SpliceOp
  | insertText (index : Nat) (text : List Char)
  | deleteContentRange (startIndex endIndex : Nat)
deriving DecidableEq

/-- The text of the notes insertion: `f"\n{call_notes}\n\n"`. -/
def notesChunk (callNotes : List Char) : List Char :=
  '\n' :: (callNotes ++ ['\n', '\n'])

/-- The errors `append_to_google_doc` can raise before issuing the write:
the wrapped call-date parse failure, the uncaught heading-timestamp parse
failure, and the no-matching-meeting-block exception. -/
inductive AppendError
  | dateParseError (callDate : List Char)
  | headingDateError (timestamp : List Char)
  | anchorNotFound (dateStr : List Char)
deriving DecidableEq

/-- The computational core of `append_to_google_doc`: flatten the document,
normalize the call date, scan for the notes anchor, then build the ordered
request list (notes insert first, then snapshot replace-in-place or plain
insert at index 1).  `.error` models an exception raised before the single
`batchUpdate` call; `.ok ops` the request list handed to it. -/
def appendToGoogleDoc (tzOffset : Int) (snapshot callNotes : List Char)
    (content : List StructuralElement) (callDate : List Char) :
    Except AppendError (List SpliceOp) :=
  let fullText := fullTextOf content
  match parseCallDate tzOffset callDate with
  | none => Except.error (AppendError.dateParseError callDate)
  | some day =>
    let target := strftimeYmd day
    match scanForAnchor target content false 0 with
    | Except.error ts => Except.error (AppendError.headingDateError ts)
    | Except.ok idx =>
      if idx = 0 then Except.error (AppendError.anchorNotFound target)
      else
        let notesOp := SpliceOp.insertText idx (notesChunk callNotes)
        match findSub SNAPSHOT_MARKER_START fullText,
              findSub SNAPSHOT_MARKER_END fullText with
        | some s, some e0 =>
            let e := e0 + SNAPSHOT_MARKER_END.length
            Except.ok [notesOp,
              SpliceOp.deleteContentRange (s + 1) (e + 1),
              SpliceOp.insertText (s + 1) snapshot]
        | some _, none =>
            Except.ok [notesOp, SpliceOp.insertText 1 (snapshot ++ ['\n', '\n'])]
        | none, some _ =>
            Except.ok [notesOp, SpliceOp.insertText 1 (snapshot ++ ['\n', '\n'])]
        | none, none =>
            Except.ok [notesOp, SpliceOp.insertText 1 (snapshot ++ ['\n', '\n'])]

/-- The write requests actually issued by one invocation: the single
`batchUpdate` happens after all computation, only when no exception was
raised, so a failing invocation issues none. -/
def issuedBatches (tzOffset : Int) (snapshot callNotes : List Char)
    (content : List StructuralElement) (callDate : List Char) :
    List (List SpliceOp) :=
  match appendToGoogleDoc tzOffset snapshot callNotes content callDate with
  | Except.ok ops => [ops]
  | Except.error _ => []

/-! ## Atomic batch application (the collaborator contract of the spec)

Modelled from the spec: the document store's `apply_batch` applies all ops of
one batch atomically against the original document's offsets (spec section 6;
the store itself is an external collaborator, not code under `src/`).
Document index `d ≥ 1` addresses character `d - 1` of the flattened text
(index 0 is the unaddressable document start, hence the `+1` convention of the
source); an insert at index `d` lands before that character, a delete range
`[a, b)` removes the characters it covers, and all indices refer to the
original text. -/

/-- Concatenation, in batch order, of the texts of all inserts at document
index `d`. -/
def insertsAt (ops : List SpliceOp) (d : Nat) : List Char :=
  match ops with
  | [] => []
  | SpliceOp.insertText i t :: rest => (if i = d then t else []) ++ insertsAt rest d
  | SpliceOp.deleteContentRange _ _ :: rest => insertsAt rest d

/-- Whether some delete range of the batch covers document index `d`. -/
def isDeleted (ops : List SpliceOp) (d : Nat) : Bool :=
  ops.any (fun op =>
    match op with
    | SpliceOp.deleteContentRange a b => decide (a ≤ d ∧ d < b)
    | _ => false)

/-- Apply a batch to the characters of a text segment whose first character
has document index `d`. -/
def applySeg (ops : List SpliceOp) : List Char → Nat → List Char
  | [], _ => []
  | c :: rest, d =>
      insertsAt ops d ++ (if isDeleted ops d then [] else [c]) ++ applySeg ops rest (d + 1)

/-- Atomic application of one batch to a whole document text (indices `1` to
`length`, with a final insertion point at `length + 1`). -/
def applyBatch (text : List Char) (ops : List SpliceOp) : List Char :=
  applySeg ops text 1 ++ insertsAt ops (text.length + 1)

/-- Document text after a sequence of issued batches. -/
def docAfterBatches (text : List Char) (batches : List (List SpliceOp)) : List Char :=
  batches.foldl applyBatch text

end GongNotes

deriving instance DecidableEq for Except

namespace GongNotes

/-- `pat` occurs in `t` at position `i`, and at no earlier position: the
spec-level notion of "the first occurrence". -/
def firstOccurAt (pat t : List Char) (i : Nat) : Prop :=
  pat <+: t.drop i ∧ ∀ j, j < i → ¬ pat <+: t.drop j

instance (pat t : List Char) (i : Nat) : Decidable (firstOccurAt pat t i) := by
  unfold firstOccurAt
  infer_instance

/-! ## Example documents used by concrete witnesses and counterexamples -/

/-- Body text of a paragraph holding an existing snapshot section. -/
def exSnapshotText : List Char :=
  SNAPSHOT_MARKER_START ++ ("\nOLD\n").toList ++ SNAPSHOT_MARKER_END ++ ("\n").toList

def exSnapshotPara : StructuralElement :=
  StructuralElement.paragraph
    ⟨("NORMAL_TEXT").toList, [ParagraphElement.textRun exSnapshotText]⟩ 51

def exHeadingPara : StructuralElement :=
  StructuralElement.paragraph
    ⟨HEADING_2, [ParagraphElement.dateElement (("2024-06-01T00:00:00Z").toList)]⟩ 51

def exAttendeesPara : StructuralElement :=
  StructuralElement.paragraph
    ⟨("NORMAL_TEXT").toList, [ParagraphElement.textRun (("Attendees: Bob\n").toList)]⟩ 66

def exTailPara : StructuralElement :=
  StructuralElement.paragraph
    ⟨("NORMAL_TEXT").toList, [ParagraphElement.textRun (("tail\n").toList)]⟩ 71

/-- A document with a snapshot section, a dated `HEADING_2` for 2024-06-01, an
Attendees paragraph and a trailing paragraph; index fields follow the
document-index convention (text position + 1). -/
def exDoc : List StructuralElement :=
  [exSnapshotPara, exHeadingPara, exAttendeesPara, exTailPara]

/-- A well-formed replacement snapshot (sentinel-wrapped, longer than the old
one). -/
def exNewSnapshot : List Char :=
  SNAPSHOT_MARKER_START ++ ("\nNEW LONGER\n").toList ++ SNAPSHOT_MARKER_END

/-- A document whose text contains the start sentinel but no end sentinel. -/
def exOrphanDoc : List StructuralElement :=
  [StructuralElement.paragraph
    ⟨("NORMAL_TEXT").toList,
     [ParagraphElement.textRun (SNAPSHOT_MARKER_START ++ ("\norphan\n").toList)]⟩ 33,
   exHeadingPara, exAttendeesPara]

/-- A document whose `HEADING_2` date token carries an all-digit (epoch
seconds) timestamp. -/
def exDigitHeadingDoc : List StructuralElement :=
  [StructuralElement.paragraph
    ⟨HEADING_2, [ParagraphElement.dateElement (("1518863400").toList)]⟩ 10,
   exAttendeesPara]

/-- A `Z` occurring before the last position of the string (so
`replace("Z", "+00:00")` and a trailing-only replacement differ). -/
def hasInteriorZ : List Char → Bool
  | [] => false
  | c :: t => (c == 'Z' && !t.isEmpty) || hasInteriorZ t

/-- Every `+` in the string is followed by exactly five characters (the only
position where the ISO grammar admits one: the timezone sign). -/
def plusOk : List Char → Bool
  | [] => true
  | c :: t => (!(c == '+') || t.length == 5) && plusOk t

/-- The document text produced by the scheduled batch in the replace case:
old text up to the snapshot start, the new snapshot, the text between the old
snapshot's end and the anchor, the notes chunk, then the rest.  (`idx` is the
anchor document index, so the anchor text position is `idx - 1`.) -/
def splicedResult (T snap notes : List Char) (idx s e0 : Nat) : List Char :=
  T.take s ++ (snap ++
    (pySlice T (e0 + SNAPSHOT_MARKER_END.length) (idx - 1) ++
      (notesChunk notes ++ T.drop (idx - 1))))

/-! ## Spec-level predicates about the anchor scan -/

/-- A `HEADING_2` paragraph one of whose date tokens carries a non-empty
timestamp whose parsed calendar day formats to the target day string. -/
def isMatchingHeadingEl (target : List Char) : StructuralElement → Bool
  | StructuralElement.paragraph p _ =>
      (p.namedStyleType == HEADING_2) &&
      p.elements.any (fun pe =>
        match pe with
        | ParagraphElement.dateElement ts =>
            !ts.isEmpty &&
            decide ((fromisoformat (replaceZ ts)).map strftimeYmd = some target)
        | _ => false)
  | StructuralElement.nonParagraph => false

/-- A paragraph containing the Attendees marker in some text run. -/
def hasAttendeesEl : StructuralElement → Bool
  | StructuralElement.paragraph p _ => paragraphHasAttendees p.elements
  | StructuralElement.nonParagraph => false

def elEndIndex : StructuralElement → Nat
  | StructuralElement.paragraph _ n => n
  | StructuralElement.nonParagraph => 0

/-- Every date token of this element (if it is a `HEADING_2` paragraph) has an
empty or ISO-parseable timestamp, so the scan cannot fail on it. -/
def headingDatesParseEl : StructuralElement → Bool
  | StructuralElement.paragraph p _ =>
      !(p.namedStyleType == HEADING_2) ||
      p.elements.all (fun pe =>
        match pe with
        | ParagraphElement.dateElement ts =>
            ts.isEmpty || (fromisoformat (replaceZ ts)).isSome
        | _ => true)
  | StructuralElement.nonParagraph => true

def headingDatesParse (elems : List StructuralElement) : Bool :=
  elems.all headingDatesParseEl

/-- Every paragraph of the document has a non-zero (truthy) `endIndex`. -/
def positiveEndIndexes (elems : List StructuralElement) : Bool :=
  elems.all (fun el =>
    match el with
    | StructuralElement.paragraph _ n => decide (n ≠ 0)
    | StructuralElement.nonParagraph => true)

/-! ## Properties of `findSub` (first-occurrence characterization) -/

theorem findSub_eq_some_iff {pat t : List Char} {i : Nat} :
    findSub pat t = some i ↔
      (pat <+: t.drop i ∧ ∀ j, j < i → ¬ pat <+: t.drop j) := by
  induction t generalizing i with
  | nil =>
      by_cases hp : pat = []
      · subst hp
        simp only [findSub, List.isEmpty_nil, if_true, List.drop_nil, List.nil_prefix,
          not_true, true_and]
        constructor
        · intro h
          injection h with h'
          intro j hj
          omega
        · intro h
          have h0 : i = 0 := by
            by_contra hne
            exact h 0 (by omega)
          rw [h0]
      · have hpe : pat.isEmpty = false := by
          cases pat with
          | nil => exact absurd rfl hp
          | cons a l => rfl
        simp only [findSub, hpe, Bool.false_eq_true, if_false, List.drop_nil,
          List.prefix_nil]
        constructor
        · intro h; cases h
        · rintro ⟨h, -⟩; exact absurd h hp
  | cons c rest ih =>
      by_cases hp : pat <+: c :: rest
      · have hb : pat.isPrefixOf (c :: rest) = true := List.isPrefixOf_iff_prefix.mpr hp
        simp only [findSub, hb, if_true]
        constructor
        · intro h
          injection h with h'
          rw [← h']
          exact ⟨by simpa using hp, fun j hj => absurd hj (Nat.not_lt_zero j)⟩
        · rintro ⟨h1, h2⟩
          have h0 : i = 0 := by
            by_contra hne
            exact h2 0 (by omega) (by simpa using hp)
          rw [h0]
      · have hb : pat.isPrefixOf (c :: rest) = false := by
          apply Bool.eq_false_iff.mpr
          intro h
          exact hp (List.isPrefixOf_iff_prefix.mp h)
        simp only [findSub, hb, Bool.false_eq_true, if_false, Option.map_eq_some']
        constructor
        · rintro ⟨i', hi', rfl⟩
          rcases ih.mp hi' with ⟨h1, h2⟩
          refine ⟨by simpa using h1, ?_⟩
          intro j hj
          cases j with
          | zero => simpa using hp
          | succ k =>
              have hk : k < i' := by omega
              simpa using h2 k hk
        · rintro ⟨h1, h2⟩
          cases i with
          | zero => exact absurd (by simpa using h1) hp
          | succ k =>
              refine ⟨k, ih.mpr ⟨by simpa using h1, ?_⟩, rfl⟩
              intro j hj
              have := h2 (j + 1) (by omega)
              simpa using this

theorem findSub_bound {pat t : List Char} {i : Nat}
    (h : findSub pat t = some i) : i + pat.length ≤ t.length := by
  rcases findSub_eq_some_iff.mp h with ⟨h1, h2⟩
  by_cases hp : pat = []
  · subst hp
    have h0 : i = 0 := by
      by_contra hne
      exact h2 0 (by omega) List.nil_prefix
    simp [h0]
  · have hlen := h1.length_le
    rw [List.length_drop] at hlen
    have hpl : 0 < pat.length := List.length_pos.mpr hp
    by_cases hi : i ≤ t.length
    · omega
    · exfalso
      have hdrop : t.drop i = [] := List.drop_eq_nil_of_le (by omega)
      rw [hdrop] at h1
      exact hp (List.prefix_nil.mp h1)

theorem findSub_eq_some_iff_firstOccurAt {pat t : List Char} {i : Nat} :
    findSub pat t = some i ↔ firstOccurAt pat t i :=
  findSub_eq_some_iff

theorem findSub_eq_none_iff {pat t : List Char} :
    findSub pat t = none ↔ ∀ j, ¬ pat <+: t.drop j := by
  constructor
  · intro h j hj
    have hx : ∃ k, pat <+: t.drop k := ⟨j, hj⟩
    have hs : findSub pat t = some (Nat.find hx) :=
      findSub_eq_some_iff.mpr ⟨Nat.find_spec hx, fun m hm => Nat.find_min hx hm⟩
    rw [h] at hs
    cases hs
  · intro h
    cases hf : findSub pat t with
    | none => rfl
    | some i => exact absurd (findSub_eq_some_iff.mp hf).1 (h i)

/-! ## Properties of atomic batch application -/

theorem applySeg_append (ops : List SpliceOp) (X Y : List Char) (d : Nat) :
    applySeg ops (X ++ Y) d = applySeg ops X d ++ applySeg ops Y (d + X.length) := by
  induction X generalizing d with
  | nil => simp [applySeg]
  | cons c t ih =>
      have harith : d + 1 + t.length = d + (t.length + 1) := by omega
      simp only [List.cons_append, applySeg, List.length_cons, List.append_eq,
        ih (d + 1), List.append_assoc, harith]

theorem applySeg_untouched (ops : List SpliceOp) (X : List Char) (d : Nat)
    (h : ∀ i, d ≤ i → i < d + X.length → insertsAt ops i = [] ∧ isDeleted ops i = false) :
    applySeg ops X d = X := by
  induction X generalizing d with
  | nil => simp [applySeg]
  | cons c t ih =>
      have h0 := h d (Nat.le_refl d) (by simp only [List.length_cons]; omega)
      have ht : applySeg ops t (d + 1) = t :=
        ih (d + 1) (fun i h1 h2 =>
          h i (by omega) (by simp only [List.length_cons]; omega))
      simp [applySeg, h0.1, h0.2, ht]

theorem applySeg_vanishes (ops : List SpliceOp) (X : List Char) (d : Nat)
    (hdel : ∀ i, d ≤ i → i < d + X.length → isDeleted ops i = true)
    (hins : ∀ i, d ≤ i → i < d + X.length → insertsAt ops i = []) :
    applySeg ops X d = [] := by
  induction X generalizing d with
  | nil => simp [applySeg]
  | cons c t ih =>
      have hd0 := hdel d (Nat.le_refl d) (by simp only [List.length_cons]; omega)
      have hi0 := hins d (Nat.le_refl d) (by simp only [List.length_cons]; omega)
      have ht : applySeg ops t (d + 1) = [] :=
        ih (d + 1)
          (fun i h1 h2 => hdel i (by omega) (by simp only [List.length_cons]; omega))
          (fun i h1 h2 => hins i (by omega) (by simp only [List.length_cons]; omega))
      simp [applySeg, hd0, hi0, ht]

theorem applySeg_deleted (ops : List SpliceOp) (X : List Char) (d : Nat)
    (hne : X ≠ [])
    (hdel : ∀ i, d ≤ i → i < d + X.length → isDeleted ops i = true)
    (hins : ∀ i, d < i → i < d + X.length → insertsAt ops i = []) :
    applySeg ops X d = insertsAt ops d := by
  cases X with
  | nil => exact absurd rfl hne
  | cons c t =>
      have hd0 := hdel d (Nat.le_refl d) (by simp only [List.length_cons]; omega)
      have ht : applySeg ops t (d + 1) = [] :=
        applySeg_vanishes ops t (d + 1)
          (fun i h1 h2 => hdel i (by omega) (by simp only [List.length_cons]; omega))
          (fun i h1 h2 => hins i (by omega) (by simp only [List.length_cons]; omega))
      simp [applySeg, hd0, ht]

theorem applySeg_insert_head (ops : List SpliceOp) (X : List Char) (d : Nat)
    (hne : X ≠ [])
    (hdel : ∀ i, d ≤ i → i < d + X.length → isDeleted ops i = false)
    (hins : ∀ i, d < i → i < d + X.length → insertsAt ops i = []) :
    applySeg ops X d = insertsAt ops d ++ X := by
  cases X with
  | nil => exact absurd rfl hne
  | cons c t =>
      have hd0 := hdel d (Nat.le_refl d) (by simp only [List.length_cons]; omega)
      have ht : applySeg ops t (d + 1) = t :=
        applySeg_untouched ops t (d + 1) (fun i h1 h2 =>
          ⟨hins i (by omega) (by simp only [List.length_cons]; omega),
           hdel i (by omega) (by simp only [List.length_cons]; omega)⟩)
      simp [applySeg, hd0, ht]

/-! ## Characterization of the scheduled op batch -/

theorem appendToGoogleDoc_present {tzOffset : Int} {snap notes : List Char}
    {content : List StructuralElement} {callDate : List Char}
    {day : CalDate} {idx s e0 : Nat}
    (hparse : parseCallDate tzOffset callDate = some day)
    (hscan : scanForAnchor (strftimeYmd day) content false 0 = Except.ok idx)
    (hidx : idx ≠ 0)
    (hs : findSub SNAPSHOT_MARKER_START (fullTextOf content) = some s)
    (he : findSub SNAPSHOT_MARKER_END (fullTextOf content) = some e0) :
    appendToGoogleDoc tzOffset snap notes content callDate =
      Except.ok [SpliceOp.insertText idx (notesChunk notes),
        SpliceOp.deleteContentRange (s + 1) (e0 + SNAPSHOT_MARKER_END.length + 1),
        SpliceOp.insertText (s + 1) snap] := by
  simp only [appendToGoogleDoc, hparse, hscan, hs, he, hidx, if_false]

theorem appendToGoogleDoc_absent {tzOffset : Int} {snap notes : List Char}
    {content : List StructuralElement} {callDate : List Char}
    {day : CalDate} {idx : Nat}
    (hparse : parseCallDate tzOffset callDate = some day)
    (hscan : scanForAnchor (strftimeYmd day) content false 0 = Except.ok idx)
    (hidx : idx ≠ 0)
    (h : findSub SNAPSHOT_MARKER_START (fullTextOf content) = none ∨
         findSub SNAPSHOT_MARKER_END (fullTextOf content) = none) :
    appendToGoogleDoc tzOffset snap notes content callDate =
      Except.ok [SpliceOp.insertText idx (notesChunk notes),
        SpliceOp.insertText 1 (snap ++ ['\n', '\n'])] := by
  rcases h with h | h
  · cases he : findSub SNAPSHOT_MARKER_END (fullTextOf content) with
    | none =>
        simp only [appendToGoogleDoc, hparse, hscan, h, he, hidx, if_false]
    | some e0 =>
        simp only [appendToGoogleDoc, hparse, hscan, h, he, hidx, if_false]
  · cases hsx : findSub SNAPSHOT_MARKER_START (fullTextOf content) with
    | none =>
        simp only [appendToGoogleDoc, hparse, hscan, h, hsx, hidx, if_false]
    | some s =>
        simp only [appendToGoogleDoc, hparse, hscan, h, hsx, hidx, if_false]

/-! ## Claim C2: the exact scheduled batch -/

/-- C2: given a resolved anchor, the scheduled batch is exactly: the notes
insert at the anchor with text `"\n" + notes + "\n\n"` first; then, when both
sentinels are found, `DeleteRange(start+1, end+1)` followed by an insert of the
snapshot text at `start+1`; otherwise a single insert of
`snapshot + "\n\n"` at index 1 — and in that case the batch contains no
`DeleteRange`. -/
theorem scheduled_batch_exact (tzOffset : Int) (snap notes : List Char)
    (content : List StructuralElement) (callDate : List Char)
    (day : CalDate) (idx : Nat)
    (hparse : parseCallDate tzOffset callDate = some day)
    (hscan : scanForAnchor (strftimeYmd day) content false 0 = Except.ok idx)
    (hidx : idx ≠ 0) :
    (∀ s e0, findSub SNAPSHOT_MARKER_START (fullTextOf content) = some s →
        findSub SNAPSHOT_MARKER_END (fullTextOf content) = some e0 →
        appendToGoogleDoc tzOffset snap notes content callDate =
          Except.ok [SpliceOp.insertText idx (notesChunk notes),
            SpliceOp.deleteContentRange (s + 1) (e0 + SNAPSHOT_MARKER_END.length + 1),
            SpliceOp.insertText (s + 1) snap]) ∧
    ((findSub SNAPSHOT_MARKER_START (fullTextOf content) = none ∨
      findSub SNAPSHOT_MARKER_END (fullTextOf content) = none) →
        ∃ ops, appendToGoogleDoc tzOffset snap notes content callDate = Except.ok ops ∧
          ops = [SpliceOp.insertText idx (notesChunk notes),
            SpliceOp.insertText 1 (snap ++ ['\n', '\n'])] ∧
          ∀ a b, SpliceOp.deleteContentRange a b ∉ ops) := by
  constructor
  · intro s e0 hs he
    exact appendToGoogleDoc_present hparse hscan hidx hs he
  · intro h
    refine ⟨_, appendToGoogleDoc_absent hparse hscan hidx h, rfl, ?_⟩
    intro a b hmem
    simp only [List.mem_cons, List.not_mem_nil, or_false] at hmem
    rcases hmem with hmem | hmem <;> cases hmem

/-- Witness for C2 at a concrete document with an existing snapshot. -/
theorem scheduled_batch_exact_witness :
    appendToGoogleDoc 0 exNewSnapshot (("call went well").toList) exDoc
        (("2024-06-01").toList) =
      Except.ok [SpliceOp.insertText 66 (notesChunk (("call went well").toList)),
        SpliceOp.deleteContentRange 1 50,
        SpliceOp.insertText 1 exNewSnapshot] :=
  (scheduled_batch_exact 0 exNewSnapshot (("call went well").toList) exDoc
      (("2024-06-01").toList) ⟨2024, 6, 1⟩ 66
      (by decide) (by decide) (by decide)).1 0 29 (by decide) (by decide)

/-! ## Claim C3 (corrected): start sentinel without end sentinel -/

/-- C3 counterexample: on a document whose flattened text contains the start
sentinel but not the end sentinel, `append_to_google_doc` does not fail;
it takes the absent-snapshot path (plain insert at index 1), contrary to the
claimed `MalformedSnapshot` failure. -/
theorem start_without_end_not_failing :
    containsSub SNAPSHOT_MARKER_START (fullTextOf exOrphanDoc) = true ∧
    containsSub SNAPSHOT_MARKER_END (fullTextOf exOrphanDoc) = false ∧
    appendToGoogleDoc 0 (("S").toList) (("N").toList) exOrphanDoc
        (("2024-06-01").toList) =
      Except.ok [SpliceOp.insertText 66 (notesChunk (("N").toList)),
        SpliceOp.insertText 1 ((("S").toList) ++ ['\n', '\n'])] :=
  ⟨by decide, by decide, by decide⟩

/-- C3 amended: snapshot-bounds resolution never fails; the delete-and-insert
path requires both sentinels, and the absent-snapshot path (plain insert at
index 1) is taken whenever either sentinel is missing — in particular when the
start sentinel is present without the end sentinel. -/
theorem start_without_end_takes_absent_path (tzOffset : Int)
    (snap notes : List Char) (content : List StructuralElement)
    (callDate : List Char) (day : CalDate) (idx s : Nat)
    (hparse : parseCallDate tzOffset callDate = some day)
    (hscan : scanForAnchor (strftimeYmd day) content false 0 = Except.ok idx)
    (hidx : idx ≠ 0)
    (_hs : findSub SNAPSHOT_MARKER_START (fullTextOf content) = some s)
    (he : findSub SNAPSHOT_MARKER_END (fullTextOf content) = none) :
    appendToGoogleDoc tzOffset snap notes content callDate =
      Except.ok [SpliceOp.insertText idx (notesChunk notes),
        SpliceOp.insertText 1 (snap ++ ['\n', '\n'])] :=
  appendToGoogleDoc_absent hparse hscan hidx (Or.inr he)

/-- Witness for the amended C3 at a concrete orphan-sentinel document. -/
theorem start_without_end_takes_absent_path_witness :
    appendToGoogleDoc 0 (("S2").toList) (("N2").toList) exOrphanDoc
        (("2024-06-01").toList) =
      Except.ok [SpliceOp.insertText 66 (notesChunk (("N2").toList)),
        SpliceOp.insertText 1 ((("S2").toList) ++ ['\n', '\n'])] :=
  start_without_end_takes_absent_path 0 (("S2").toList) (("N2").toList)
    exOrphanDoc (("2024-06-01").toList) ⟨2024, 6, 1⟩ 66 0
    (by decide) (by decide) (by decide) (by decide) (by decide)

/-! ## Claim C6 (corrected): relative indices of the scheduled ops -/

/-- C6 counterexample: in the produced batch the notes insert is at index 66
while the snapshot ops are at index 1; the notes index is not strictly
smaller than the snapshot edit indices. -/
theorem notes_index_not_smaller :
    appendToGoogleDoc 0 exNewSnapshot (("notes2").toList) exDoc
        (("2024-06-01").toList) =
      Except.ok [SpliceOp.insertText 66 (notesChunk (("notes2").toList)),
        SpliceOp.deleteContentRange 1 50,
        SpliceOp.insertText 1 exNewSnapshot] ∧
    ¬ (66 < 1) :=
  ⟨by decide, by decide⟩

/-- C6 amended: the notes insert is scheduled first in the batch, but its
character index is strictly greater than the index of every snapshot edit op
(whose index is `start + 1`), provided the snapshot region ends at or before
the anchor — the system's layout, with the snapshot at document start and
meeting blocks after it; in the absent-snapshot case the snapshot insert index
is `1 ≤` the anchor. -/
theorem notes_op_first_in_batch_but_larger_index (tzOffset : Int)
    (snap notes : List Char) (content : List StructuralElement)
    (callDate : List Char) (day : CalDate) (idx : Nat)
    (hparse : parseCallDate tzOffset callDate = some day)
    (hscan : scanForAnchor (strftimeYmd day) content false 0 = Except.ok idx)
    (hidx : idx ≠ 0) :
    (∀ s e0, findSub SNAPSHOT_MARKER_START (fullTextOf content) = some s →
        findSub SNAPSHOT_MARKER_END (fullTextOf content) = some e0 →
        s ≤ e0 → e0 + SNAPSHOT_MARKER_END.length + 1 ≤ idx →
        appendToGoogleDoc tzOffset snap notes content callDate =
          Except.ok [SpliceOp.insertText idx (notesChunk notes),
            SpliceOp.deleteContentRange (s + 1) (e0 + SNAPSHOT_MARKER_END.length + 1),
            SpliceOp.insertText (s + 1) snap] ∧
        s + 1 < idx) ∧
    ((findSub SNAPSHOT_MARKER_START (fullTextOf content) = none ∨
      findSub SNAPSHOT_MARKER_END (fullTextOf content) = none) →
        appendToGoogleDoc tzOffset snap notes content callDate =
          Except.ok [SpliceOp.insertText idx (notesChunk notes),
            SpliceOp.insertText 1 (snap ++ ['\n', '\n'])] ∧
        1 ≤ idx) := by
  constructor
  · intro s e0 hs he ho hl
    have hlen : SNAPSHOT_MARKER_END.length = 20 := by decide
    exact ⟨appendToGoogleDoc_present hparse hscan hidx hs he, by omega⟩
  · intro h
    exact ⟨appendToGoogleDoc_absent hparse hscan hidx h, by omega⟩

/-- Witness for the amended C6 at a concrete document. -/
theorem notes_op_first_in_batch_but_larger_index_witness :
    appendToGoogleDoc 0 exNewSnapshot (("notes3").toList) exDoc
        (("2024-06-01").toList) =
      Except.ok [SpliceOp.insertText 66 (notesChunk (("notes3").toList)),
        SpliceOp.deleteContentRange 1 50,
        SpliceOp.insertText 1 exNewSnapshot] ∧
    0 + 1 < 66 :=
  (notes_op_first_in_batch_but_larger_index 0 exNewSnapshot (("notes3").toList)
      exDoc (("2024-06-01").toList) ⟨2024, 6, 1⟩ 66
      (by decide) (by decide) (by decide)).1 0 29
    (by decide) (by decide) (by decide) (by decide)

/-! ## Claim C4: the anchor scan -/

theorem headingDateMatch_eq_ok (target : List Char) (els : List ParagraphElement)
    (h : els.all (fun pe =>
        match pe with
        | ParagraphElement.dateElement ts =>
            ts.isEmpty || (fromisoformat (replaceZ ts)).isSome
        | _ => true) = true) :
    headingDateMatch target els =
      Except.ok (els.any (fun pe =>
        match pe with
        | ParagraphElement.dateElement ts =>
            !ts.isEmpty &&
            decide ((fromisoformat (replaceZ ts)).map strftimeYmd = some target)
        | _ => false)) := by
  induction els with
  | nil => rfl
  | cons pe rest ih =>
      rw [List.all_cons, Bool.and_eq_true] at h
      obtain ⟨h1, h2⟩ := h
      cases pe with
      | textRun c => simpa [headingDateMatch, List.any_cons] using ih h2
      | otherElement => simpa [headingDateMatch, List.any_cons] using ih h2
      | dateElement ts =>
          by_cases hts : ts.isEmpty = true
          · simpa [headingDateMatch, hts, List.any_cons] using ih h2
          · have hts' : ts.isEmpty = false := by
              cases hb : ts.isEmpty
              · rfl
              · exact absurd hb hts
            have h1' : (ts.isEmpty || (fromisoformat (replaceZ ts)).isSome) = true := h1
            rw [hts', Bool.false_or] at h1'
            obtain ⟨d, hd⟩ := Option.isSome_iff_exists.mp h1'
            by_cases heq : strftimeYmd d = target
            · simp [headingDateMatch, hts', hd, heq, List.any_cons]
            · simp [headingDateMatch, hts', hd, heq, List.any_cons, ih h2]

theorem scanForAnchor_skip_unmatched (target : List Char)
    (pre rest : List StructuralElement)
    (hparse : ∀ x ∈ pre, headingDatesParseEl x = true)
    (hnm : ∀ x ∈ pre, isMatchingHeadingEl target x = false) :
    scanForAnchor target (pre ++ rest) false 0 = scanForAnchor target rest false 0 := by
  induction pre with
  | nil => rfl
  | cons x xs ih =>
      have ih' := ih (fun y hy => hparse y (List.mem_cons_of_mem x hy))
        (fun y hy => hnm y (List.mem_cons_of_mem x hy))
      have hx_parse := hparse x (List.mem_cons_self x xs)
      have hx_nm := hnm x (List.mem_cons_self x xs)
      cases x with
      | nonParagraph => simpa [scanForAnchor] using ih'
      | paragraph p n =>
          by_cases hst : p.namedStyleType = HEADING_2
          · have hbeq : (p.namedStyleType == HEADING_2) = true := beq_iff_eq.mpr hst
            have hall : p.elements.all (fun pe =>
                match pe with
                | ParagraphElement.dateElement ts =>
                    ts.isEmpty || (fromisoformat (replaceZ ts)).isSome
                | _ => true) = true := by
              rw [headingDatesParseEl, hbeq] at hx_parse
              simpa using hx_parse
            have hany : p.elements.any (fun pe =>
                match pe with
                | ParagraphElement.dateElement ts =>
                    !ts.isEmpty &&
                    decide ((fromisoformat (replaceZ ts)).map strftimeYmd = some target)
                | _ => false) = false := by
              rw [isMatchingHeadingEl, hbeq] at hx_nm
              simpa using hx_nm
            rw [List.cons_append]
            rw [scanForAnchor]
            rw [if_pos ⟨rfl, hst⟩, headingDateMatch_eq_ok target p.elements hall, hany]
            exact ih'
          · rw [List.cons_append, scanForAnchor]
            rw [if_neg (fun hc => hst hc.2)]
            simpa using ih'

theorem scanForAnchor_skip_noattendees (target : List Char)
    (mid rest : List StructuralElement)
    (hna : ∀ x ∈ mid, hasAttendeesEl x = false) :
    scanForAnchor target (mid ++ rest) true 0 = scanForAnchor target rest true 0 := by
  induction mid with
  | nil => rfl
  | cons x xs ih =>
      have ih' := ih (fun y hy => hna y (List.mem_cons_of_mem x hy))
      have hx := hna x (List.mem_cons_self x xs)
      cases x with
      | nonParagraph => simpa [scanForAnchor] using ih'
      | paragraph p n =>
          have hpa : paragraphHasAttendees p.elements = false := by
            simpa [hasAttendeesEl] using hx
          rw [List.cons_append, scanForAnchor]
          rw [if_neg (fun hc => by cases hc.1)]
          simpa [hpa] using ih'

theorem scanForAnchor_transition (target : List Char) (h : StructuralElement)
    (rest : List StructuralElement)
    (hm : isMatchingHeadingEl target h = true)
    (hp : headingDatesParseEl h = true) :
    scanForAnchor target (h :: rest) false 0 = scanForAnchor target rest true 0 := by
  cases h with
  | nonParagraph => cases hm
  | paragraph p n =>
      rw [isMatchingHeadingEl, Bool.and_eq_true] at hm
      obtain ⟨hbeq, hany⟩ := hm
      have hst : p.namedStyleType = HEADING_2 := beq_iff_eq.mp hbeq
      have hall : p.elements.all (fun pe =>
          match pe with
          | ParagraphElement.dateElement ts =>
              ts.isEmpty || (fromisoformat (replaceZ ts)).isSome
          | _ => true) = true := by
        rw [headingDatesParseEl, hbeq] at hp
        simpa using hp
      rw [scanForAnchor, if_pos ⟨rfl, hst⟩,
        headingDateMatch_eq_ok target p.elements hall, hany]
      rfl

theorem scanForAnchor_hit (target : List Char) (a : StructuralElement)
    (rest : List StructuralElement)
    (ha : hasAttendeesEl a = true) (hn : elEndIndex a ≠ 0) :
    scanForAnchor target (a :: rest) true 0 = Except.ok (elEndIndex a) := by
  cases a with
  | nonParagraph => cases ha
  | paragraph p n =>
      have hpa : paragraphHasAttendees p.elements = true := by
        simpa [hasAttendeesEl] using ha
      have hn' : n ≠ 0 := by simpa [elEndIndex] using hn
      rw [scanForAnchor, if_neg (fun hc => by cases hc.1)]
      simp [hpa, hn', elEndIndex]

/-- C4: the anchor scan (under the reading that every scanned heading date
token is empty or parseable — the unparseable case is settled separately with
C7 — and that paragraph `endIndex` fields are truthy, as they are in the
collaborator's convention):
1. it returns the `endIndex` of the first Attendees paragraph after the first
   `HEADING_2` whose date token matches the target day, skipping any number of
   non-matching or dateless headings before it;
2. it yields `.ok 0` (the not-found state) when no heading matches;
3. and when no Attendees paragraph follows the first matching heading;
4. and the not-found state makes `append_to_google_doc` raise the
   no-matching-block error to the caller. -/
theorem anchor_scan_first_match (target : List Char)
    (elems : List StructuralElement)
    (hp : headingDatesParse elems = true)
    (hq : positiveEndIndexes elems = true) :
    (∀ pre h mid a post,
        elems = pre ++ h :: (mid ++ a :: post) →
        (∀ x ∈ pre, isMatchingHeadingEl target x = false) →
        isMatchingHeadingEl target h = true →
        (∀ x ∈ mid, hasAttendeesEl x = false) →
        hasAttendeesEl a = true →
        scanForAnchor target elems false 0 = Except.ok (elEndIndex a) ∧
          elEndIndex a ≠ 0) ∧
    ((∀ x ∈ elems, isMatchingHeadingEl target x = false) →
        scanForAnchor target elems false 0 = Except.ok 0) ∧
    (∀ pre h rest, elems = pre ++ h :: rest →
        (∀ x ∈ pre, isMatchingHeadingEl target x = false) →
        isMatchingHeadingEl target h = true →
        (∀ x ∈ rest, hasAttendeesEl x = false) →
        scanForAnchor target elems false 0 = Except.ok 0) ∧
    (∀ tzOffset snap notes callDate day,
        parseCallDate tzOffset callDate = some day →
        strftimeYmd day = target →
        scanForAnchor target elems false 0 = Except.ok 0 →
        appendToGoogleDoc tzOffset snap notes elems callDate =
          Except.error (AppendError.anchorNotFound target)) := by
  have hp' : ∀ x ∈ elems, headingDatesParseEl x = true := by
    rw [headingDatesParse, List.all_eq_true] at hp
    exact hp
  refine ⟨?_, ?_, ?_, ?_⟩
  · intro pre h mid a post hsplit hnm hm hna ha
    have hmem_a : a ∈ elems := by
      rw [hsplit]
      simp
    have hend : elEndIndex a ≠ 0 := by
      rw [positiveEndIndexes, List.all_eq_true] at hq
      have := hq a hmem_a
      cases a with
      | paragraph p n => simpa [elEndIndex] using this
      | nonParagraph => cases ha
    have hmem_h : h ∈ elems := by
      rw [hsplit]
      simp
    rw [hsplit, scanForAnchor_skip_unmatched target pre _
        (fun y hy => hp' y (by rw [hsplit]; simp [hy])) hnm,
      scanForAnchor_transition target h _ hm (hp' h hmem_h),
      scanForAnchor_skip_noattendees target mid _ hna,
      scanForAnchor_hit target a post ha hend]
    exact ⟨rfl, hend⟩
  · intro hnm
    have := scanForAnchor_skip_unmatched target elems [] hp' hnm
    rw [List.append_nil] at this
    rw [this]
    rfl
  · intro pre h rest hsplit hnm hm hna
    have hmem_h : h ∈ elems := by
      rw [hsplit]
      simp
    have hstep := scanForAnchor_skip_noattendees target rest [] hna
    rw [List.append_nil] at hstep
    rw [hsplit, scanForAnchor_skip_unmatched target pre _
        (fun y hy => hp' y (by rw [hsplit]; simp [hy])) hnm,
      scanForAnchor_transition target h _ hm (hp' h hmem_h),
      hstep]
    rfl
  · intro tzOffset snap notes callDate day hpc htgt hscan0
    simp only [appendToGoogleDoc, hpc, htgt, hscan0, if_pos]

/-- Witness for C4 at a concrete document: the Attendees paragraph after the
matching heading is found at its `endIndex` 66. -/
theorem anchor_scan_first_match_witness :
    scanForAnchor (("2024-06-01").toList) exDoc false 0 = Except.ok 66 ∧
      (66 : Nat) ≠ 0 :=
  (anchor_scan_first_match (("2024-06-01").toList) exDoc (by decide) (by decide)).1
    [exSnapshotPara] exHeadingPara [] exAttendeesPara [exTailPara]
    rfl (by decide) (by decide) (by simp) (by decide)

/-! ## Claim C1: the applied batch -/

theorem applyBatch_replace_ops (A B C D snap NC : List Char) (s e idx : Nat)
    (hA : A.length = s) (hB : B.length = e - s) (hC : C.length = idx - 1 - e)
    (hse : s < e) (hei : e + 1 ≤ idx) :
    applyBatch (A ++ (B ++ (C ++ D)))
      [SpliceOp.insertText idx NC,
       SpliceOp.deleteContentRange (s + 1) (e + 1),
       SpliceOp.insertText (s + 1) snap] =
    A ++ (snap ++ (C ++ (NC ++ D))) := by
  set ops := [SpliceOp.insertText idx NC,
    SpliceOp.deleteContentRange (s + 1) (e + 1),
    SpliceOp.insertText (s + 1) snap] with hops
  have hins : ∀ i, insertsAt ops i =
      (if idx = i then NC else []) ++ (if s + 1 = i then snap else []) := by
    intro i
    simp [hops, insertsAt]
  have hdel : ∀ i, isDeleted ops i = decide (s + 1 ≤ i ∧ i < e + 1) := by
    intro i
    simp [hops, isDeleted]
  have hsegA : applySeg ops A 1 = A := by
    apply applySeg_untouched
    intro i h1 h2
    rw [hA] at h2
    refine ⟨?_, ?_⟩
    · rw [hins i, if_neg (by omega), if_neg (by omega)]
      rfl
    · rw [hdel i]
      simp only [decide_eq_false_iff_not]
      omega
  have hsegB : applySeg ops B (s + 1) = snap := by
    rw [applySeg_deleted ops B (s + 1)
        (by intro hB0; rw [hB0] at hB; simp at hB; omega)
        (by intro i h1 h2
            rw [hB] at h2
            rw [hdel i]
            simp only [decide_eq_true_eq]
            omega)
        (by intro i h1 h2
            rw [hB] at h2
            rw [hins i, if_neg (by omega), if_neg (by omega)]
            rfl),
      hins (s + 1), if_neg (by omega), if_pos rfl]
    rfl
  have hsegC : applySeg ops C (e + 1) = C := by
    apply applySeg_untouched
    intro i h1 h2
    rw [hC] at h2
    refine ⟨?_, ?_⟩
    · rw [hins i, if_neg (by omega), if_neg (by omega)]
      rfl
    · rw [hdel i]
      simp only [decide_eq_false_iff_not]
      omega
  rw [applyBatch]
  rw [applySeg_append ops A (B ++ (C ++ D)) 1]
  rw [applySeg_append ops B (C ++ D) (1 + A.length)]
  rw [applySeg_append ops C D (1 + A.length + B.length)]
  have pA : 1 + A.length = s + 1 := by omega
  have pB : 1 + A.length + B.length = e + 1 := by omega
  have pC : 1 + A.length + B.length + C.length = idx := by omega
  have pT : (A ++ (B ++ (C ++ D))).length + 1 = idx + D.length := by
    simp only [List.length_append]
    omega
  rw [pC, pB, pA, pT, hsegA, hsegB, hsegC]
  cases D with
  | nil =>
      have hD : applySeg ops ([] : List Char) idx = [] := rfl
      rw [hD, hins (idx + ([] : List Char).length), List.length_nil, Nat.add_zero,
        if_pos rfl, if_neg (by omega)]
      simp
  | cons d0 ds =>
      have hD : applySeg ops (d0 :: ds) idx = NC ++ (d0 :: ds) := by
        rw [applySeg_insert_head ops (d0 :: ds) idx (by simp)
            (by intro i h1 h2
                rw [hdel i]
                simp only [decide_eq_false_iff_not]
                omega)
            (by intro i h1 h2
                rw [hins i, if_neg (by omega), if_neg (by omega)]
                rfl),
          hins idx, if_pos rfl, if_neg (by omega)]
        simp
      have htrail : insertsAt ops (idx + (d0 :: ds).length) = [] := by
        rw [hins, if_neg (by simp only [List.length_cons]; omega),
          if_neg (by simp only [List.length_cons]; omega)]
        rfl
      rw [hD, htrail]
      simp

theorem extract_of_spliced (A snap rest : List Char) (s : Nat)
    (hA : A.length = s)
    (hfs : firstOccurAt SNAPSHOT_MARKER_START (A ++ (snap ++ rest)) s)
    (hfe : firstOccurAt SNAPSHOT_MARKER_END (A ++ (snap ++ rest))
        (s + snap.length - SNAPSHOT_MARKER_END.length))
    (hlen : SNAPSHOT_MARKER_END.length ≤ snap.length) :
    extractSnapshot (A ++ (snap ++ rest)) = snap := by
  have h1 := findSub_eq_some_iff_firstOccurAt.mpr hfs
  have h2 := findSub_eq_some_iff_firstOccurAt.mpr hfe
  unfold extractSnapshot
  rw [h1, h2]
  show pySlice (A ++ (snap ++ rest)) s
      (s + snap.length - SNAPSHOT_MARKER_END.length + SNAPSHOT_MARKER_END.length) = snap
  have harith : s + snap.length - SNAPSHOT_MARKER_END.length + SNAPSHOT_MARKER_END.length =
      s + snap.length := by omega
  rw [harith]
  unfold pySlice
  rw [← hA, List.drop_left]
  have harith2 : A.length + snap.length - A.length = snap.length := by omega
  rw [harith2]
  exact List.take_left snap rest

/-- C1 counterexample: with a new snapshot text that is not sentinel-wrapped
(here `"X"`), the document produced by the scheduled batch does not extract to
the new snapshot text, although the original text contains the start sentinel
before the end sentinel. -/
theorem applied_batch_extract_mismatch :
    firstOccurAt SNAPSHOT_MARKER_START (fullTextOf exDoc) 0 ∧
    firstOccurAt SNAPSHOT_MARKER_END (fullTextOf exDoc) 29 ∧
    appendToGoogleDoc 0 (("X").toList) (("N").toList) exDoc (("2024-06-01").toList) =
      Except.ok [SpliceOp.insertText 66 (notesChunk (("N").toList)),
        SpliceOp.deleteContentRange 1 50,
        SpliceOp.insertText 1 (("X").toList)] ∧
    extractSnapshot (applyBatch (fullTextOf exDoc)
      [SpliceOp.insertText 66 (notesChunk (("N").toList)),
       SpliceOp.deleteContentRange 1 50,
       SpliceOp.insertText 1 (("X").toList)]) ≠ ("X").toList :=
  ⟨by decide, by decide, by decide, by decide⟩

/-- C1 amended: when the scan resolves an anchor, the flattened text contains
the start sentinel (first at `s`) before the end sentinel, and the snapshot
region ends before the anchor (the system's layout), applying the scheduled
batch atomically against original offsets yields exactly `splicedResult`: the
old snapshot span replaced in place by the new snapshot text and the notes
chunk `"\n" + notes + "\n\n"` inserted at the anchor position; and provided
the sentinels occur in the result only at the inserted snapshot (no stray
occurrences in the notes or remaining document text), extraction returns
exactly the new snapshot text, for any relative lengths of old and new
snapshot content. -/
theorem applied_batch_replaces_snapshot (tzOffset : Int)
    (snap notes : List Char) (content : List StructuralElement)
    (callDate : List Char) (day : CalDate) (idx s e0 : Nat)
    (hparse : parseCallDate tzOffset callDate = some day)
    (hscan : scanForAnchor (strftimeYmd day) content false 0 = Except.ok idx)
    (hidx : idx ≠ 0)
    (hs : findSub SNAPSHOT_MARKER_START (fullTextOf content) = some s)
    (he : findSub SNAPSHOT_MARKER_END (fullTextOf content) = some e0)
    (horder : s ≤ e0)
    (hanchor : e0 + SNAPSHOT_MARKER_END.length + 1 ≤ idx)
    (hspan : idx ≤ (fullTextOf content).length + 1) :
    appendToGoogleDoc tzOffset snap notes content callDate =
      Except.ok [SpliceOp.insertText idx (notesChunk notes),
        SpliceOp.deleteContentRange (s + 1) (e0 + SNAPSHOT_MARKER_END.length + 1),
        SpliceOp.insertText (s + 1) snap] ∧
    applyBatch (fullTextOf content)
      [SpliceOp.insertText idx (notesChunk notes),
        SpliceOp.deleteContentRange (s + 1) (e0 + SNAPSHOT_MARKER_END.length + 1),
        SpliceOp.insertText (s + 1) snap] =
      splicedResult (fullTextOf content) snap notes idx s e0 ∧
    (firstOccurAt SNAPSHOT_MARKER_START
        (splicedResult (fullTextOf content) snap notes idx s e0) s →
     firstOccurAt SNAPSHOT_MARKER_END
        (splicedResult (fullTextOf content) snap notes idx s e0)
        (s + snap.length - SNAPSHOT_MARKER_END.length) →
     SNAPSHOT_MARKER_END.length ≤ snap.length →
     extractSnapshot (splicedResult (fullTextOf content) snap notes idx s e0) = snap) := by
  have hlenE : SNAPSHOT_MARKER_END.length = 20 := by decide
  have hboundE := findSub_bound he
  have hboundS := findSub_bound hs
  refine ⟨appendToGoogleDoc_present hparse hscan hidx hs he, ?_, ?_⟩
  · set T := fullTextOf content with hT
    set e := e0 + SNAPSHOT_MARKER_END.length with he'
    have hd1 : T.drop s = pySlice T s e ++ T.drop e := by
      unfold pySlice
      conv_lhs => rw [← List.take_append_drop (e - s) (T.drop s)]
      congr 1
      rw [List.drop_drop]
      congr 1
      omega
    have hd2 : T.drop e = pySlice T e (idx - 1) ++ T.drop (idx - 1) := by
      unfold pySlice
      conv_lhs => rw [← List.take_append_drop (idx - 1 - e) (T.drop e)]
      congr 1
      rw [List.drop_drop]
      congr 1
      omega
    have hdecomp : T = T.take s ++
        (pySlice T s e ++ (pySlice T e (idx - 1) ++ T.drop (idx - 1))) := by
      conv_lhs => rw [← List.take_append_drop s T]
      rw [hd1, hd2]
    have hA : (T.take s).length = s := by
      rw [List.length_take]
      omega
    have hB : (pySlice T s e).length = e - s := by
      unfold pySlice
      rw [List.length_take, List.length_drop]
      omega
    have hC : (pySlice T e (idx - 1)).length = idx - 1 - e := by
      unfold pySlice
      rw [List.length_take, List.length_drop]
      omega
    conv_lhs => rw [hdecomp]
    unfold splicedResult
    exact applyBatch_replace_ops (T.take s) (pySlice T s e)
      (pySlice T e (idx - 1)) (T.drop (idx - 1)) snap (notesChunk notes)
      s e idx hA hB hC (by omega) (by omega)
  · intro hfs hfe hlen
    have hA : ((fullTextOf content).take s).length = s := by
      rw [List.length_take]
      omega
    exact extract_of_spliced ((fullTextOf content).take s) snap _ s hA hfs hfe hlen

/-- Witness for the amended C1 at a concrete document with a longer
replacement snapshot. -/
theorem applied_batch_replaces_snapshot_witness :
    applyBatch (fullTextOf exDoc)
      [SpliceOp.insertText 66 (notesChunk (("call went well").toList)),
        SpliceOp.deleteContentRange 1 50,
        SpliceOp.insertText 1 exNewSnapshot] =
      splicedResult (fullTextOf exDoc) exNewSnapshot (("call went well").toList) 66 0 29 ∧
    extractSnapshot (splicedResult (fullTextOf exDoc) exNewSnapshot
        (("call went well").toList) 66 0 29) = exNewSnapshot := by
  have h := applied_batch_replaces_snapshot 0 exNewSnapshot
    (("call went well").toList) exDoc (("2024-06-01").toList) ⟨2024, 6, 1⟩ 66 0 29
    (by decide) (by decide) (by decide) (by decide) (by decide)
    (by decide) (by decide) (by decide)
  exact ⟨h.2.1, h.2.2 (by decide) (by decide) (by decide)⟩

/-! ## Claims C8 and C10: snapshot extraction -/

/-- C8: for every flattened text, snapshot extraction returns the substring
starting at the first occurrence of the start sentinel and ending at the end
of the first occurrence of the end sentinel (both sentinels included), and
returns the empty string whenever either sentinel is absent.  (The embedding
is a pure function, so the input is never mutated.) -/
theorem extract_returns_first_sentinel_span (t : List Char) :
    (∀ s e0, firstOccurAt SNAPSHOT_MARKER_START t s →
        firstOccurAt SNAPSHOT_MARKER_END t e0 →
        extractSnapshot t = pySlice t s (e0 + SNAPSHOT_MARKER_END.length)) ∧
    (((∀ j, ¬ SNAPSHOT_MARKER_START <+: t.drop j) ∨
      (∀ j, ¬ SNAPSHOT_MARKER_END <+: t.drop j)) →
        extractSnapshot t = []) := by
  constructor
  · intro s e0 hs he
    have h1 : findSub SNAPSHOT_MARKER_START t = some s :=
      findSub_eq_some_iff_firstOccurAt.mpr hs
    have h2 : findSub SNAPSHOT_MARKER_END t = some e0 :=
      findSub_eq_some_iff_firstOccurAt.mpr he
    unfold extractSnapshot
    rw [h1, h2]
  · rintro (h | h)
    · have h1 : findSub SNAPSHOT_MARKER_START t = none := findSub_eq_none_iff.mpr h
      unfold extractSnapshot
      rw [h1]
    · have h2 : findSub SNAPSHOT_MARKER_END t = none := findSub_eq_none_iff.mpr h
      unfold extractSnapshot
      rw [h2]
      cases findSub SNAPSHOT_MARKER_START t <;> rfl

/-- Witness for C8 at a concrete document text. -/
theorem extract_returns_first_sentinel_span_witness :
    extractSnapshot ("xx=== ACCOUNT SNAPSHOT ===mid=== END SNAPSHOT ===yy").toList =
      pySlice ("xx=== ACCOUNT SNAPSHOT ===mid=== END SNAPSHOT ===yy").toList 2 49 :=
  (extract_returns_first_sentinel_span
      ("xx=== ACCOUNT SNAPSHOT ===mid=== END SNAPSHOT ===yy").toList).1
    2 29 (by decide) (by decide)

/-- C10: when both sentinels occur but the first occurrence of the end
sentinel ends at or before the position of the first occurrence of the start
sentinel, extraction returns the empty string. -/
theorem extract_empty_when_end_before_start (t : List Char) (s e0 : Nat)
    (hs : firstOccurAt SNAPSHOT_MARKER_START t s)
    (he : firstOccurAt SNAPSHOT_MARKER_END t e0)
    (hle : e0 + SNAPSHOT_MARKER_END.length ≤ s) :
    extractSnapshot t = [] := by
  have h1 : findSub SNAPSHOT_MARKER_START t = some s :=
    findSub_eq_some_iff_firstOccurAt.mpr hs
  have h2 : findSub SNAPSHOT_MARKER_END t = some e0 :=
    findSub_eq_some_iff_firstOccurAt.mpr he
  unfold extractSnapshot
  rw [h1, h2]
  show List.take (e0 + SNAPSHOT_MARKER_END.length - s) (List.drop s t) = []
  have h0 : e0 + SNAPSHOT_MARKER_END.length - s = 0 := by omega
  rw [h0]
  exact List.take_zero _

/-- Witness for C10: a text in which the end sentinel precedes the start
sentinel. -/
theorem extract_empty_when_end_before_start_witness :
    extractSnapshot ("=== END SNAPSHOT ====== ACCOUNT SNAPSHOT ===").toList = [] :=
  extract_empty_when_end_before_start
    ("=== END SNAPSHOT ====== ACCOUNT SNAPSHOT ===").toList
    20 0 (by decide) (by decide) (by decide)

/-! ## Claims C5 and C7: date normalization -/

theorem isAsciiDigit_ne_plus {ch : Char} (h : isAsciiDigit ch = true) : ch ≠ '+' := by
  intro hc
  rw [hc] at h
  exact absurd h (by decide)

theorem isAsciiDigit_ne_dash {ch : Char} (h : isAsciiDigit ch = true) : ch ≠ '-' := by
  intro hc
  rw [hc] at h
  exact absurd h (by decide)

theorem isAsciiDigit_ne_Z {ch : Char} (h : isAsciiDigit ch = true) : ch ≠ 'Z' := by
  intro hc
  rw [hc] at h
  exact absurd h (by decide)

theorem validTZ_noZ {v : List Char} (hv : validTZ v = true) : 'Z' ∉ v := by
  intro hz
  unfold validTZ at hv
  split at hv
  · simp at hz
  · rw [decide_eq_true_eq] at hv
    obtain ⟨hsg, hcl, hd1, hd2, hd3, hd4, -, -⟩ := hv
    simp only [List.mem_cons, List.not_mem_nil, or_false] at hz
    rcases hz with rfl | rfl | rfl | rfl | rfl | rfl
    · rcases hsg with h | h <;> exact absurd h (by decide)
    · exact absurd hd1 (by decide)
    · exact absurd hd2 (by decide)
    · exact absurd hcl (by decide)
    · exact absurd hd3 (by decide)
    · exact absurd hd4 (by decide)
  · cases hv

theorem validSeconds_noZ {v : List Char} (hv : validSeconds v = true) : 'Z' ∉ v := by
  intro hz
  unfold validSeconds at hv
  split at hv
  · rename_i c s1 s2 rest
    split at hv
    · rename_i hcol
      rw [decide_eq_true_eq] at hv
      obtain ⟨hd1, hd2, -, htz⟩ := hv
      simp only [List.mem_cons] at hz
      rcases hz with rfl | rfl | rfl | hz
      · exact absurd hcol (by decide)
      · exact absurd hd1 (by decide)
      · exact absurd hd2 (by decide)
      · exact validTZ_noZ htz hz
    · exact validTZ_noZ hv hz
  · exact validTZ_noZ hv hz

theorem validTimePart_noZ {v : List Char} (hv : validTimePart v = true) : 'Z' ∉ v := by
  intro hz
  unfold validTimePart at hv
  split at hv
  · simp at hz
  · rw [decide_eq_true_eq] at hv
    obtain ⟨hsep, hcl, hd1, hd2, hd3, hd4, -, -, hsec⟩ := hv
    simp only [List.mem_cons] at hz
    rcases hz with rfl | rfl | rfl | rfl | rfl | rfl | hz
    · rcases hsep with h | h <;> exact absurd h (by decide)
    · exact absurd hd1 (by decide)
    · exact absurd hd2 (by decide)
    · exact absurd hcl (by decide)
    · exact absurd hd3 (by decide)
    · exact absurd hd4 (by decide)
    · exact validSeconds_noZ hsec hz
  · cases hv

theorem fromisoformat_noZ {t : List Char} {d : CalDate}
    (h : fromisoformat t = some d) : 'Z' ∉ t := by
  intro hz
  unfold fromisoformat at h
  split at h
  · split at h
    · rename_i hcond
      obtain ⟨hc1, hc2, hy1, hy2, hy3, hy4, hm1, hm2, hd1, hd2, htp⟩ := hcond
      simp only [List.mem_cons] at hz
      rcases hz with rfl | rfl | rfl | rfl | rfl | rfl | rfl | rfl | rfl | rfl | hz
      · exact absurd hy1 (by decide)
      · exact absurd hy2 (by decide)
      · exact absurd hy3 (by decide)
      · exact absurd hy4 (by decide)
      · exact absurd hc1 (by decide)
      · exact absurd hm1 (by decide)
      · exact absurd hm2 (by decide)
      · exact absurd hc2 (by decide)
      · exact absurd hd1 (by decide)
      · exact absurd hd2 (by decide)
      · exact validTimePart_noZ htp hz
    · cases h
  · cases h

theorem plusOk_append {a b : List Char} (ha : ∀ c ∈ a, c ≠ '+')
    (hb : plusOk b = true) : plusOk (a ++ b) = true := by
  induction a with
  | nil => simpa using hb
  | cons c t ih =>
      have hc : (c == '+') = false :=
        beq_eq_false_iff_ne.mpr (ha c (List.mem_cons_self c t))
      simp [plusOk, hc, ih (fun y hy => ha y (List.mem_cons_of_mem c hy))]

theorem validTZ_plusOk {v : List Char} (hv : validTZ v = true) : plusOk v = true := by
  unfold validTZ at hv
  split at hv
  · rfl
  · rename_i sg hh1 hh2 cc mm1 mm2
    rw [decide_eq_true_eq] at hv
    obtain ⟨hsg, hcl, hd1, hd2, hd3, hd4, -, -⟩ := hv
    subst hcl
    have n1 : (hh1 == '+') = false := beq_eq_false_iff_ne.mpr (isAsciiDigit_ne_plus hd1)
    have n2 : (hh2 == '+') = false := beq_eq_false_iff_ne.mpr (isAsciiDigit_ne_plus hd2)
    have n3 : (mm1 == '+') = false := beq_eq_false_iff_ne.mpr (isAsciiDigit_ne_plus hd3)
    have n4 : (mm2 == '+') = false := beq_eq_false_iff_ne.mpr (isAsciiDigit_ne_plus hd4)
    simp [plusOk, n1, n2, n3, n4]
  · cases hv

theorem validSeconds_plusOk {v : List Char} (hv : validSeconds v = true) :
    plusOk v = true := by
  unfold validSeconds at hv
  split at hv
  · rename_i c s1 s2 rest
    split at hv
    · rename_i hcol
      rw [decide_eq_true_eq] at hv
      obtain ⟨hd1, hd2, -, htz⟩ := hv
      subst hcol
      have := plusOk_append (a := [':', s1, s2]) (b := rest)
        (by
          intro y hy
          simp only [List.mem_cons, List.not_mem_nil, or_false] at hy
          rcases hy with rfl | rfl | rfl
          · decide
          · exact isAsciiDigit_ne_plus hd1
          · exact isAsciiDigit_ne_plus hd2)
        (validTZ_plusOk htz)
      simpa using this
    · exact validTZ_plusOk hv
  · exact validTZ_plusOk hv

theorem validTimePart_plusOk {v : List Char} (hv : validTimePart v = true) :
    plusOk v = true := by
  unfold validTimePart at hv
  split at hv
  · rfl
  · rename_i sep hh1 hh2 cc mm1 mm2 rest
    rw [decide_eq_true_eq] at hv
    obtain ⟨hsep, hcl, hd1, hd2, hd3, hd4, -, -, hsec⟩ := hv
    subst hcl
    have := plusOk_append (a := [sep, hh1, hh2, ':', mm1, mm2]) (b := rest)
      (by
        intro y hy
        simp only [List.mem_cons, List.not_mem_nil, or_false] at hy
        rcases hy with rfl | rfl | rfl | rfl | rfl | rfl
        · rcases hsep with h | h <;> (rw [h]; decide)
        · exact isAsciiDigit_ne_plus hd1
        · exact isAsciiDigit_ne_plus hd2
        · decide
        · exact isAsciiDigit_ne_plus hd3
        · exact isAsciiDigit_ne_plus hd4)
      (validSeconds_plusOk hsec)
    simpa using this
  · cases hv

theorem fromisoformat_plusOk {t : List Char} {d : CalDate}
    (h : fromisoformat t = some d) : plusOk t = true := by
  unfold fromisoformat at h
  split at h
  · split at h
    · rename_i hcond
      obtain ⟨hc1, hc2, hy1, hy2, hy3, hy4, hm1, hm2, hd1, hd2, htp⟩ := hcond
      rename_i y1 y2 y3 y4 c1 m1 m2 c2 dd1 dd2 rest
      subst hc1
      subst hc2
      have := plusOk_append
        (a := [y1, y2, y3, y4, '-', m1, m2, '-', dd1, dd2]) (b := rest)
        (by
          intro y hy
          simp only [List.mem_cons, List.not_mem_nil, or_false] at hy
          rcases hy with rfl | rfl | rfl | rfl | rfl | rfl | rfl | rfl | rfl | rfl
          · exact isAsciiDigit_ne_plus hy1
          · exact isAsciiDigit_ne_plus hy2
          · exact isAsciiDigit_ne_plus hy3
          · exact isAsciiDigit_ne_plus hy4
          · decide
          · exact isAsciiDigit_ne_plus hm1
          · exact isAsciiDigit_ne_plus hm2
          · decide
          · exact isAsciiDigit_ne_plus hd1
          · exact isAsciiDigit_ne_plus hd2)
        (validTimePart_plusOk htp)
      simpa using this
    · cases h
  · cases h

theorem replaceZ_of_noZ {s : List Char} (h : ∀ c ∈ s, c ≠ 'Z') : replaceZ s = s := by
  induction s with
  | nil => rfl
  | cons c t ih =>
      have hc := h c (List.mem_cons_self c t)
      simp [replaceZ, hc, ih (fun y hy => h y (List.mem_cons_of_mem c hy))]

theorem replaceZ_ne_nil {s : List Char} (h : s ≠ []) : replaceZ s ≠ [] := by
  cases s with
  | nil => exact absurd rfl h
  | cons c t =>
      by_cases hc : c = 'Z'
      · simp [replaceZ, hc, zReplacement]
      · simp [replaceZ, hc]

theorem hasInteriorZ_not_plusOk {s : List Char} (h : hasInteriorZ s = true) :
    plusOk (replaceZ s) = false := by
  induction s with
  | nil => cases h
  | cons c t ih =>
      by_cases hc : c = 'Z'
      · subst hc
        have ht : t ≠ [] := by
          intro h0
          subst h0
          simp [hasInteriorZ] at h
        have hrw : replaceZ ('Z' :: t) = '+' :: (['0', '0', ':', '0', '0'] ++ replaceZ t) := by
          simp [replaceZ, zReplacement]
        rw [hrw]
        have h1 : replaceZ t ≠ [] := replaceZ_ne_nil ht
        simp [plusOk, h1]
      · have hc' : (c == 'Z') = false := beq_eq_false_iff_ne.mpr hc
        rw [hasInteriorZ, hc'] at h
        simp only [Bool.false_and, Bool.false_or] at h
        have hrw : replaceZ (c :: t) = c :: replaceZ t := by simp [replaceZ, hc]
        rw [hrw]
        simp [plusOk, ih h]

theorem hasInteriorZ_mem_dropLast {s : List Char} (h : hasInteriorZ s = true) :
    'Z' ∈ s.dropLast := by
  induction s with
  | nil => cases h
  | cons c t ih =>
      by_cases hc : c = 'Z'
      · subst hc
        cases t with
        | nil => simp [hasInteriorZ] at h
        | cons x xs => exact List.mem_cons_self 'Z' ((x :: xs).dropLast)
      · have hc' : (c == 'Z') = false := beq_eq_false_iff_ne.mpr hc
        rw [hasInteriorZ, hc'] at h
        simp only [Bool.false_and, Bool.false_or] at h
        have ht : t ≠ [] := by
          intro h0
          subst h0
          cases h
        cases t with
        | nil => exact absurd rfl ht
        | cons x xs => exact List.mem_cons_of_mem c (ih h)

theorem not_hasInteriorZ_replace_eq {s : List Char} (h : hasInteriorZ s = false) :
    replaceZ s = replaceTrailingZ s := by
  induction s with
  | nil => rfl
  | cons c t ih =>
      rw [hasInteriorZ, Bool.or_eq_false_iff] at h
      obtain ⟨h1, h2⟩ := h
      by_cases hc : c = 'Z'
      · subst hc
        have ht : t = [] := by
          cases t with
          | nil => rfl
          | cons x xs => simp at h1
        subst ht
        decide
      · have hrw : replaceZ (c :: t) = c :: replaceZ t := by simp [replaceZ, hc]
        rw [hrw, ih h2]
        cases t with
        | nil => simp [replaceTrailingZ, hc]
        | cons x xs =>
            rw [replaceTrailingZ, replaceTrailingZ, List.getLast?_cons_cons]
            cases hl : (x :: xs).getLast? with
            | none => simp at hl
            | some a =>
                by_cases ha : a = 'Z'
                · subst ha
                  simp
                · simp [ha]

/-- On strings with an interior `Z`, both the code's replace-all and the
spec's replace-trailing variant fail to parse; otherwise the two replacements
coincide, so parse success agrees. -/
theorem fromisoformat_replaceZ_agrees (s : List Char) :
    (fromisoformat (replaceZ s)).isSome = (fromisoformat (replaceTrailingZ s)).isSome := by
  cases hi : hasInteriorZ s with
  | false => rw [not_hasInteriorZ_replace_eq hi]
  | true =>
      have h1 : fromisoformat (replaceZ s) = none := by
        cases hf : fromisoformat (replaceZ s) with
        | none => rfl
        | some d =>
            have := fromisoformat_plusOk hf
            rw [hasInteriorZ_not_plusOk hi] at this
            cases this
      have h2 : fromisoformat (replaceTrailingZ s) = none := by
        cases hf : fromisoformat (replaceTrailingZ s) with
        | none => rfl
        | some d =>
            have hmem : 'Z' ∈ replaceTrailingZ s := by
              have hdl := hasInteriorZ_mem_dropLast hi
              unfold replaceTrailingZ
              cases hl : s.getLast? with
              | none =>
                  rw [List.getLast?_eq_none_iff] at hl
                  subst hl
                  cases hi
              | some a =>
                  by_cases ha : a = 'Z'
                  · subst ha
                    simp only [if_pos rfl]
                    exact List.mem_append_left _ hdl
                  · simp only [if_neg ha]
                    exact (List.dropLast_sublist s).mem hdl
            exact absurd hmem (fromisoformat_noZ hf)
      rw [h1, h2]

theorem digitChar_eq_iff {a b : Nat} (h : digitChar a = digitChar b) :
    a % 10 = b % 10 := by
  have h10a : a % 10 < 10 := Nat.mod_lt _ (by omega)
  have h10b : b % 10 < 10 := Nat.mod_lt _ (by omega)
  have key : ∀ x, x < 10 → ∀ y, y < 10 →
      Char.ofNat (48 + x) = Char.ofNat (48 + y) → x = y := by decide
  exact key _ h10a _ h10b (by simpa [digitChar] using h)

theorem strftimeYmd_inj {d1 d2 : CalDate}
    (hy1 : d1.year < 10000) (hy2 : d2.year < 10000)
    (hm1 : d1.month < 100) (hm2 : d2.month < 100)
    (hd1 : d1.day < 100) (hd2 : d2.day < 100) :
    strftimeYmd d1 = strftimeYmd d2 ↔ d1 = d2 := by
  constructor
  · intro h
    obtain ⟨y1, m1, dd1⟩ := d1
    obtain ⟨y2, m2, dd2⟩ := d2
    simp only [strftimeYmd, pad4, pad2, List.cons_append, List.nil_append,
      List.cons.injEq, and_true] at h
    obtain ⟨e1, e2, e3, e4, -, e5, e6, -, e7, e8⟩ := h
    have q1 := digitChar_eq_iff e1
    have q2 := digitChar_eq_iff e2
    have q3 := digitChar_eq_iff e3
    have q4 := digitChar_eq_iff e4
    have q5 := digitChar_eq_iff e5
    have q6 := digitChar_eq_iff e6
    have q7 := digitChar_eq_iff e7
    have q8 := digitChar_eq_iff e8
    simp only at hy1 hy2 hm1 hm2 hd1 hd2
    have hy : y1 = y2 := by omega
    have hm : m1 = m2 := by omega
    have hd : dd1 = dd2 := by omega
    rw [hy, hm, hd]
  · intro h
    rw [h]

theorem fromisoformat_digits_none {ts : List Char} (h : pyIsDigit ts = true) :
    fromisoformat ts = none := by
  rw [pyIsDigit, Bool.and_eq_true, List.all_eq_true] at h
  obtain ⟨-, hall⟩ := h
  rcases ts with _ | ⟨y1, _ | ⟨y2, _ | ⟨y3, _ | ⟨y4, _ | ⟨c1, _ | ⟨m1, _ | ⟨m2,
    _ | ⟨c2, _ | ⟨dd1, _ | ⟨dd2, rest⟩⟩⟩⟩⟩⟩⟩⟩⟩⟩
  · rfl
  · rfl
  · rfl
  · rfl
  · rfl
  · rfl
  · rfl
  · rfl
  · rfl
  · rfl
  · have hc1 : isAsciiDigit c1 = true := hall c1 (by simp)
    simp only [fromisoformat]
    rw [if_neg (fun hcond => isAsciiDigit_ne_dash hc1 hcond.1)]

theorem replaceTrailingZ_of_noZ {s : List Char} (h : ∀ c ∈ s, c ≠ 'Z') :
    replaceTrailingZ s = s := by
  unfold replaceTrailingZ
  cases hl : s.getLast? with
  | none => rfl
  | some a =>
      have ha : a ∈ s := List.mem_of_mem_getLast? (by rw [hl]; rfl)
      show (if a = 'Z' then s.dropLast ++ zReplacement else s) = s
      rw [if_neg (h a ha)]

/-- C5 counterexample: an all-digit call date does not always succeed: a
13-digit millisecond timestamp is all-digit, but interpreting it as epoch
seconds lands outside `datetime`'s supported year range, so
`datetime.fromtimestamp` raises and the write aborts with the date-parse
error. -/
theorem all_digit_call_date_can_fail :
    pyIsDigit (("1518863400000").toList) = true ∧
    parseCallDate 0 (("1518863400000").toList) = none ∧
    appendToGoogleDoc 0 (("S").toList) (("N").toList) exDoc
        (("1518863400000").toList) =
      Except.error (AppendError.dateParseError (("1518863400000").toList)) :=
  ⟨by decide, by decide, by decide⟩

/-- C5 amended: over ASCII call-date strings (the hypothesis records the
model's scope: Python's `str.isdigit` also accepts non-ASCII Unicode digit
strings this embedding does not model), normalization succeeds exactly when
the string is all-digit AND its epoch-seconds value yields a date within
`datetime`'s supported range, or it is parseable ISO-8601 after replacing a
trailing `Z` with `+00:00` (the code replaces every `Z`, proved to accept the
same strings); every other string fails with a date-parse error that aborts
the write; and two timestamps compare equal for matching purposes exactly
when their normalized calendar days (year, month, day) are equal. -/
theorem call_date_normalization_ranged (tzOffset : Int) :
    (∀ s, (∀ c ∈ s, c.toNat < 128) →
        ((parseCallDate tzOffset s).isSome = true ↔
          ((pyIsDigit s = true ∧
              (fromtimestamp tzOffset (digitsToNat s)).isSome = true) ∨
            (fromisoformat (replaceTrailingZ s)).isSome = true))) ∧
    (∀ snap notes content s, parseCallDate tzOffset s = none →
        appendToGoogleDoc tzOffset snap notes content s =
          Except.error (AppendError.dateParseError s)) ∧
    (∀ d1 d2 : CalDate, d1.year < 10000 → d2.year < 10000 →
        d1.month < 100 → d2.month < 100 → d1.day < 100 → d2.day < 100 →
        (strftimeYmd d1 = strftimeYmd d2 ↔ d1 = d2)) := by
  refine ⟨?_, ?_, ?_⟩
  · intro s _hascii
    unfold parseCallDate
    by_cases hd : pyIsDigit s = true
    · have hnoZ : ∀ c ∈ s, c ≠ 'Z' := by
        intro c hc
        rw [pyIsDigit, Bool.and_eq_true, List.all_eq_true] at hd
        exact isAsciiDigit_ne_Z (hd.2 c hc)
      have hiso : fromisoformat (replaceTrailingZ s) = none := by
        rw [replaceTrailingZ_of_noZ hnoZ]
        exact fromisoformat_digits_none hd
      simp [hd, hiso]
    · have hd' : pyIsDigit s = false := by
        cases h : pyIsDigit s
        · rfl
        · exact absurd h hd
      rw [hd']
      simp only [Bool.false_eq_true, if_false, false_and, false_or]
      rw [fromisoformat_replaceZ_agrees s]
  · intro snap notes content s h
    simp only [appendToGoogleDoc, h]
  · intro d1 d2 h1 h2 h3 h4 h5 h6
    exact strftimeYmd_inj h1 h2 h3 h4 h5 h6

/-- Witness for the amended C5: an in-range epoch-seconds date parses, a
non-date string aborts the write, and day-equality matching at concrete
dates. -/
theorem call_date_normalization_ranged_witness :
    ((pyIsDigit (("1518863400").toList) = true ∧
        (fromtimestamp 0 (digitsToNat (("1518863400").toList))).isSome = true) ∨
      (fromisoformat (replaceTrailingZ (("1518863400").toList))).isSome = true) ∧
    appendToGoogleDoc 0 (("S").toList) (("N").toList) exDoc (("garbage").toList) =
      Except.error (AppendError.dateParseError (("garbage").toList)) ∧
    strftimeYmd ⟨2024, 6, 1⟩ = strftimeYmd ⟨2024, 6, 1⟩ :=
  ⟨((call_date_normalization_ranged 0).1 (("1518863400").toList)
      (by decide)).mp (by decide),
   (call_date_normalization_ranged 0).2.1 (("S").toList) (("N").toList) exDoc
     (("garbage").toList) (by decide),
   ((call_date_normalization_ranged 0).2.2 ⟨2024, 6, 1⟩ ⟨2024, 6, 1⟩
     (by decide) (by decide) (by decide) (by decide) (by decide) (by decide)).mpr rfl⟩

/-! ## Claim C7 (corrected): heading timestamps are ISO-parsed only -/

/-- C7 counterexample: an all-digit heading timestamp is not normalized as
epoch seconds; the scan fails with an uncaught parse error even though the
same all-digit string is accepted as a call date. -/
theorem digit_heading_timestamp_errors :
    pyIsDigit (("1518863400").toList) = true ∧
    appendToGoogleDoc 0 (("S").toList) (("N").toList) exDigitHeadingDoc
        (("1518863400").toList) =
      Except.error (AppendError.headingDateError (("1518863400").toList)) :=
  ⟨by decide, by decide⟩

/-- C7 amended: the anchor scan normalizes heading timestamps only via
ISO-8601 parsing after `replace("Z", "+00:00")`, with no epoch-seconds
branch: a non-empty all-digit heading timestamp makes the scan fail with a
parse error instead of matching. -/
theorem heading_timestamp_iso_only (target ts : List Char)
    (els : List ParagraphElement) (n : Nat) (rest : List StructuralElement)
    (h : pyIsDigit ts = true) :
    scanForAnchor target
      (StructuralElement.paragraph
        ⟨HEADING_2, ParagraphElement.dateElement ts :: els⟩ n :: rest)
      false 0 = Except.error ts := by
  have hne : ts.isEmpty = false := by
    rw [pyIsDigit, Bool.and_eq_true] at h
    obtain ⟨h1, -⟩ := h
    cases hb : ts.isEmpty
    · rfl
    · rw [hb] at h1
      cases h1
  have hnoZ : replaceZ ts = ts := replaceZ_of_noZ (by
    intro c hc
    rw [pyIsDigit, Bool.and_eq_true, List.all_eq_true] at h
    exact isAsciiDigit_ne_Z (h.2 c hc))
  have hnone : fromisoformat (replaceZ ts) = none := by
    rw [hnoZ]
    exact fromisoformat_digits_none h
  rw [scanForAnchor, if_pos ⟨rfl, rfl⟩]
  simp [headingDateMatch, hne, hnone]

/-- Witness for the amended C7 at the concrete epoch timestamp. -/
theorem heading_timestamp_iso_only_witness :
    scanForAnchor (("2018-02-17").toList)
      (StructuralElement.paragraph
        ⟨HEADING_2, ParagraphElement.dateElement (("1518863400").toList) :: []⟩ 10
        :: [exAttendeesPara])
      false 0 = Except.error (("1518863400").toList) :=
  heading_timestamp_iso_only (("2018-02-17").toList) (("1518863400").toList)
    [] 10 [exAttendeesPara] (by decide)

/-! ## Claim C9: failures are raised before the batched write -/

/-- C9: an invocation failing with the date-parse error or the
no-matching-meeting-block error raises strictly before the single `batchUpdate`
request: no batch is issued, and the document text is unchanged. -/
theorem failure_raised_before_write (tzOffset : Int) (snap notes : List Char)
    (content : List StructuralElement) (callDate : List Char) :
    (parseCallDate tzOffset callDate = none →
        appendToGoogleDoc tzOffset snap notes content callDate =
          Except.error (AppendError.dateParseError callDate) ∧
        issuedBatches tzOffset snap notes content callDate = [] ∧
        docAfterBatches (fullTextOf content)
          (issuedBatches tzOffset snap notes content callDate) = fullTextOf content) ∧
    (∀ day, parseCallDate tzOffset callDate = some day →
        scanForAnchor (strftimeYmd day) content false 0 = Except.ok 0 →
        appendToGoogleDoc tzOffset snap notes content callDate =
          Except.error (AppendError.anchorNotFound (strftimeYmd day)) ∧
        issuedBatches tzOffset snap notes content callDate = [] ∧
        docAfterBatches (fullTextOf content)
          (issuedBatches tzOffset snap notes content callDate) = fullTextOf content) := by
  constructor
  · intro h
    have happ : appendToGoogleDoc tzOffset snap notes content callDate =
        Except.error (AppendError.dateParseError callDate) := by
      simp only [appendToGoogleDoc, h]
    have hiss : issuedBatches tzOffset snap notes content callDate = [] := by
      simp only [issuedBatches, happ]
    exact ⟨happ, hiss, by rw [hiss]; rfl⟩
  · intro day hday hscan0
    have happ : appendToGoogleDoc tzOffset snap notes content callDate =
        Except.error (AppendError.anchorNotFound (strftimeYmd day)) := by
      simp only [appendToGoogleDoc, hday, hscan0, if_pos]
    have hiss : issuedBatches tzOffset snap notes content callDate = [] := by
      simp only [issuedBatches, happ]
    exact ⟨happ, hiss, by rw [hiss]; rfl⟩

/-- Witness for C9 at a concrete malformed call date. -/
theorem failure_raised_before_write_witness :
    appendToGoogleDoc 0 (("S").toList) (("N").toList) exDoc (("garbage2").toList) =
      Except.error (AppendError.dateParseError (("garbage2").toList)) ∧
    issuedBatches 0 (("S").toList) (("N").toList) exDoc (("garbage2").toList) = [] ∧
    docAfterBatches (fullTextOf exDoc)
      (issuedBatches 0 (("S").toList) (("N").toList) exDoc (("garbage2").toList)) =
      fullTextOf exDoc :=
  (failure_raised_before_write 0 (("S").toList) (("N").toList) exDoc
    (("garbage2").toList)).1 (by decide)

end GongNotes
